import Mathlib

/-!
Verification of the torsion-fitting model construction in choderalab/Torsions.

The development shallowly embeds the two model variants:
 * `torsionfit/model.py` (class `TorsionFitModel`): the current reversible-jump
   model with the precomputed cosine basis and the deterministic node
   `torsion_energy`;
 * `torsions/TorsionFitModel.py` (legacy class `TorsionFitModel`): the
   per-multiplicity-latent variant with `update_param`, `add_missing` and the
   deterministic node `mm_potential`.

Machine floats are modelled by `ℚ` (all operations exercised here are exact:
elementwise products, sums, minima, and assignments), numpy arrays by `List ℚ`,
and Python dictionaries by functions into `Option` where a `KeyError` is
possible and by total functions where the constructor guarantees presence.
-/

/-! ### Bitmask table of `torsionfit/model.py`

`model.py` lines 143-145 build `self.bitmasks` as
`list(itertools.product((0,1), repeat=6))`.  `itertools.product` varies the
first coordinate slowest, so `productRep (n+1)` lists all masks starting with
0 before all masks starting with 1. -/
def productRep : Nat → List (List Nat)
  | 0 => [[]]
  | n + 1 => ((productRep n).map (fun rest => 0 :: rest))
      ++ ((productRep n).map (fun rest => 1 :: rest))

/-- `self.bitmasks` of `TorsionFitModel.__init__` (model.py:143-145). -/
def bitmasks : List (List Nat) := productRep 6

/-- `self.bitmasks[b]`: the 6-entry 0/1 mask stored at index `b`. -/
def mask (b : Nat) : List Nat := bitmasks.getD b []

/-- `K * self.bitmasks[bitstring]` (model.py:163): elementwise product of the
6-vector of force constants with the stored mask. -/
def maskedK (K : List ℚ) (b : Nat) : List ℚ :=
  List.zipWith (fun k m => k * (m : ℚ)) K (mask b)

/-- Decoding per the claim: the multiplicities `m` whose entry `m-1` of the
stored mask at index `b` is 1. -/
def multiplicities_for (b : Nat) : List Nat :=
  ((List.range 6).filter (fun j => (mask b).getD j 0 == 1)).map (fun j => j + 1)

/-- Encoding used by the legacy constructor and `update_param`
(torsions/TorsionFitModel.py:36,116): sum of `2^(m-1)` over active
multiplicities `m`. -/
def bitstring_for (ms : List Nat) : Nat :=
  (ms.map (fun m => 2 ^ (m - 1))).sum

/-- Reversal of the low 6 bits of `b`. -/
def bitRev6 (b : Nat) : Nat :=
  ((List.range 6).map (fun i => if b.testBit i then 2 ^ (5 - i) else 0)).sum

/-- The mask stored at index `b < 64` lists the bits of `b` most-significant
first: entry `j` is bit `5 - j` of `b`. -/
theorem mask_char : ∀ b, b < 64 → mask b =
    [if b.testBit 5 then 1 else 0, if b.testBit 4 then 1 else 0,
     if b.testBit 3 then 1 else 0, if b.testBit 2 then 1 else 0,
     if b.testBit 1 then 1 else 0, if b.testBit 0 then 1 else 0] := by decide

/-- Claim C2, counterexample: at `b = 3 = 0b000011` the code's mask is
`(0,0,0,0,1,1)`, so with all force constants 1 the masked vector zeroes
`K[0]` (multiplicity 1) even though bit 0 of `b` is set, contradicting the
claimed convention. -/
theorem maskedK_bit_reversed_cex :
    maskedK [1, 1, 1, 1, 1, 1] 3 = [0, 0, 0, 0, 1, 1] ∧
    Nat.testBit 3 0 = true ∧
    (maskedK [1, 1, 1, 1, 1, 1] 3).getD 0 0 ≠ 1 := by
  have h : mask 3 = [0, 0, 0, 0, 1, 1] := by decide
  refine ⟨?_, by decide, ?_⟩
  · simp [maskedK, h]
  · simp [maskedK, h]

/-- Claim C2 (amended): masking keeps component `K[m-1]` exactly when bit
`6 - m` of `b` is set — the mask table built from `itertools.product` lists
multiplicity 1 at the most-significant position, the reverse of the
`2^(m-1)` convention. -/
theorem maskedK_active_iff_high_bit (b : Nat) (hb : b < 64) (K : List ℚ)
    (hK : K.length = 6) (m : Nat) (hm : m ∈ ([1, 2, 3, 4, 5, 6] : List Nat)) :
    (maskedK K b).getD (m - 1) 0 =
      if b.testBit (6 - m) then K.getD (m - 1) 0 else 0 := by
  obtain ⟨k0, k1, k2, k3, k4, k5, rfl⟩ :
      ∃ a0 a1 a2 a3 a4 a5, K = [a0, a1, a2, a3, a4, a5] := by
    rcases K with _ | ⟨a0, _ | ⟨a1, _ | ⟨a2, _ | ⟨a3, _ | ⟨a4, _ | ⟨a5, _ | ⟨a6, K⟩⟩⟩⟩⟩⟩⟩ <;>
      first
        | exact ⟨_, _, _, _, _, _, rfl⟩
        | (simp only [List.length_cons, List.length_nil] at hK; omega)
  fin_cases hm <;>
    · norm_num [maskedK, mask_char b hb, mul_ite]

/-- Claim C2, witness for the amended statement: at `b = 3`, multiplicity 1. -/
theorem maskedK_active_iff_high_bit_w :
    (maskedK [(1 : ℚ), 1, 1, 1, 1, 1] 3).getD 0 0 =
      if Nat.testBit 3 (6 - 1) then ([(1 : ℚ), 1, 1, 1, 1, 1].getD 0 0) else 0 :=
  maskedK_active_iff_high_bit 3 (by decide) [1, 1, 1, 1, 1, 1] (by decide) 1
    (by decide)

/-- Claim C3, counterexample: decoding index 1 through the mask table gives
multiplicity 6, which re-encodes to 32, not 1. -/
theorem bitstring_roundTrip_cex :
    bitstring_for (multiplicities_for 1) = 32 ∧
    bitstring_for (multiplicities_for 1) ≠ 1 := by decide

/-- Claim C3 (amended): re-encoding the multiplicities decoded from `b`
yields the reversal of the low six bits of `b`, not `b` itself; the
round-trip is the identity exactly on bit-palindromic indices. -/
theorem bitstring_roundTrip_reversal :
    ∀ b, b < 64 → bitstring_for (multiplicities_for b) = bitRev6 b := by decide

/-- Claim C3, witness: the reversal equation at `b = 5`. -/
theorem bitstring_roundTrip_reversal_w :
    bitstring_for (multiplicities_for 5) = bitRev6 5 :=
  bitstring_roundTrip_reversal 5 (by decide)

/-! ### Torsion identifiers -/

/-- An ordered 4-tuple of atom-type labels denoting a dihedral. -/
structure Tors where
  a1 : String
  a2 : String
  a3 : String
  a4 : String
deriving DecidableEq

/-- `p[0] + '_' + p[1] + '_' + p[2] + '_' + p[3]` (model.py:100,
torsions/TorsionFitModel.py:27,111). -/
def torsionName (p : Tors) : String :=
  p.a1 ++ "_" ++ p.a2 ++ "_" ++ p.a3 ++ "_" ++ p.a4

/-- `tuple(reversed(torsion))`: the physically equivalent reverse-order
identifier. -/
def revTors (p : Tors) : Tors := ⟨p.a4, p.a3, p.a2, p.a1⟩

/-! ### Energy Model Assembler (`torsion_energy`, model.py:154-170)

A fragment carries the residue name keying its offset latent, its frame
count, and the precomputed cosine basis `cosines[i][t]` (model.py:147-152):
one `n_frames x 6` matrix per torsion, fixed at model construction.  The
latent values are modelled as functions of the torsion/fragment name,
standing for `pymc_parameters['NAME_K']`, `pymc_parameters
['NAME_multiplicity_bitstring']` and `pymc_parameters['NAME_offset']`. -/
structure Frag where
  name : String
  nFrames : Nat
  torsions : List (Tors × List (List ℚ))

structure Latents where
  Kv : String → List ℚ
  bitstringv : String → Nat
  offsetv : String → ℚ

/-- One frame's contribution `(K*cosines[i][t]).sum(1)` for a single row of
the cosine-basis matrix (model.py:166). -/
def rowEnergy (K : List ℚ) (row : List ℚ) : ℚ :=
  (List.zipWith (fun k c => k * c) K row).sum

/-- The per-fragment accumulator `Fourier_sum` (model.py:159-166): a zero
vector of length `n_frames`, accumulating each torsion's per-frame Fourier
sum, with `K` masked by the bitstring when reversible jump is on. -/
def fragFourierSum (rj : Bool) (lat : Latents) (frag : Frag) : List ℚ :=
  frag.torsions.foldl
    (fun acc tc =>
      let tn := torsionName tc.1
      let K := if rj then maskedK (lat.Kv tn) (lat.bitstringv tn) else lat.Kv tn
      List.zipWith (fun a b => a + b) acc (tc.2.map (rowEnergy K)))
    (List.replicate frag.nFrames 0)

/-- Python `min` of a nonempty sequence (the empty case is unreachable in the
source and mapped to 0 here). -/
def listMin : List ℚ → ℚ
  | [] => 0
  | x :: xs => xs.foldl min x

/-- The adjusted accumulator `Fourier_sum_rel` (model.py:167-168): the raw
accumulator minus its own minimum, plus the fragment's offset latent.
`torsion_energy` computes this value and then discards it. -/
def fragAdjusted (rj : Bool) (lat : Latents) (frag : Frag) : List ℚ :=
  let fs := fragFourierSum rj lat frag
  (fs.map (fun x => x - listMin fs)).map (fun x => x + lat.offsetv frag.name)

/-- The deterministic node `torsion_energy` (model.py:154-170).  Line 169
appends the raw `Fourier_sum` — not the `Fourier_sum_rel` computed on lines
167-168 — so the returned vector is the concatenation of the raw
accumulators. -/
def torsion_energy (rj : Bool) (lat : Latents) (frags : List Frag) : List ℚ :=
  frags.foldl (fun mm f => mm ++ fragFourierSum rj lat f) []

/-- Modelled from the spec: the value §4.3 (steps 3-4) and claim C1 say
`torsion_energy` returns — the concatenation, in fragment order, of each
fragment's min-subtracted, offset-shifted accumulator. -/
def torsion_energy_spec (rj : Bool) (lat : Latents) (frags : List Frag) : List ℚ :=
  frags.foldl (fun mm f => mm ++ fragAdjusted rj lat f) []

def fragC1 : Frag :=
  { name := "PRL", nFrames := 2,
    torsions := [(⟨"A", "B", "C", "D"⟩, [[1, 1, 1, 1, 1, 1], [1, 1, 1, 1, 1, 1]])] }

def latC1 : Latents :=
  { Kv := fun _ => [0, 0, 0, 0, 0, 0], bitstringv := fun _ => 0,
    offsetv := fun _ => 5 }

/-- Claim C1: with one fragment (two frames, all-ones cosine rows), all force
constants 0 and offset 5, `torsion_energy` returns the raw accumulator
`[0, 0]` (minimum 0, not 5), while the value described by the spec — computed
on model.py:167-168 and then dropped by line 169 — is `[5, 5]` with minimum
exactly 5. -/
theorem torsion_energy_drops_adjustment :
    torsion_energy false latC1 [fragC1] = [0, 0] ∧
    listMin (torsion_energy false latC1 [fragC1]) = 0 ∧
    torsion_energy_spec false latC1 [fragC1] = [5, 5] ∧
    listMin (torsion_energy_spec false latC1 [fragC1]) = 5 := by
  refine ⟨?_, ?_, ?_, ?_⟩ <;>
    norm_num [torsion_energy, torsion_energy_spec, fragFourierSum, fragAdjusted,
      listMin, rowEnergy, fragC1, latC1, List.replicate]

/-! ### Configuration resolution (model.py:67-82) -/

structure ModelConfig where
  rj : Bool
  sample_n5 : Bool
  continuous_phase : Bool
  sample_phase : Bool
deriving DecidableEq

/-- The option check of `TorsionFitModel.__init__` (model.py:79-82): the
attributes are first set from the arguments; when `sample_phase` is false and
`continuous_phase` is true, a warning is emitted (second component `true`)
and `self.continuous_phase` is overwritten to `False`.  No exception is
raised on any input (the function is total). -/
def resolveConfig (c : ModelConfig) : ModelConfig × Bool :=
  if c.sample_phase = false ∧ c.continuous_phase = true then
    ({ c with continuous_phase := false }, true)
  else (c, false)

/-- Claim C8: constructing with `sample_phase = false` and
`continuous_phase = true` always succeeds, warns, forces `continuous_phase`
to false, and leaves every other configuration field unchanged. -/
theorem config_conflict_recovery (c : ModelConfig)
    (h1 : c.sample_phase = false) (h2 : c.continuous_phase = true) :
    (resolveConfig c).1.continuous_phase = false ∧
    (resolveConfig c).2 = true ∧
    (resolveConfig c).1.rj = c.rj ∧
    (resolveConfig c).1.sample_n5 = c.sample_n5 ∧
    (resolveConfig c).1.sample_phase = c.sample_phase := by
  simp [resolveConfig, h1, h2]

/-- Claim C8, witness at a concrete conflicting configuration. -/
theorem config_conflict_recovery_w :
    (resolveConfig ⟨true, true, true, false⟩).1.continuous_phase = false ∧
    (resolveConfig ⟨true, true, true, false⟩).2 = true ∧
    (resolveConfig ⟨true, true, true, false⟩).1.rj = true ∧
    (resolveConfig ⟨true, true, true, false⟩).1.sample_n5 = true ∧
    (resolveConfig ⟨true, true, true, false⟩).1.sample_phase = false :=
  config_conflict_recovery ⟨true, true, true, false⟩ rfl rfl

/-! ### Randomized initialization (model.py:94-127)

Before the `init_random` loop runs, `self.pymc_parameters` holds, in
insertion order: one `Uniform` offset per fragment (model.py:94-97); then per
torsion a `Uniform` `log_sigma_k_T`, two `Lambda` nodes `sigma_k_T` and
`precision_k_T`, and a `Normal` 6-vector `T_K` (model.py:99-111); then, when
reversible jump is on, one `DiscreteUniform` bitstring per torsion
(model.py:116-120).  The global `log_sigma`, its `Lambda` derivations, the
deterministic `torsion_energy` and the observed `qm_fit` are only added
after the loop (model.py:130-182).  The loop re-draws a parameter exactly
when its node type is not `Lambda` and its name does not start with the
eleven characters `log_sigma_k` (model.py:124-126). -/
inductive NodeKind where
  | Uniform
  | Lambda
  | Normal
  | DiscreteUniform
deriving DecidableEq

/-- The first `n` characters of a name, modelling Python's `name[:n]`. -/
def takeChars (s : String) (n : Nat) : List Char := s.data.take n

/-- The four per-torsion entries inserted by model.py:102-111, in insertion
order. -/
def torsionBlocks : List String → List (String × NodeKind)
  | [] => []
  | t :: ts =>
      ("log_sigma_k_" ++ t, NodeKind.Uniform) ::
      ("sigma_k_" ++ t, NodeKind.Lambda) ::
      ("precision_k_" ++ t, NodeKind.Lambda) ::
      (t ++ "_K", NodeKind.Normal) :: torsionBlocks ts

/-- `self.pymc_parameters` as it stands when the `init_random` loop runs
(model.py:122-127). -/
def paramsAtInit (fragNames torsionNames : List String) (rj : Bool) :
    List (String × NodeKind) :=
  fragNames.map (fun f => (f ++ "_offset", NodeKind.Uniform))
    ++ torsionBlocks torsionNames
    ++ (if rj then
          torsionNames.map (fun t => (t ++ "_multiplicity_bitstring", NodeKind.DiscreteUniform))
        else [])

/-- The re-draw condition of model.py:125:
`type(...) != pymc.CommonDeterministics.Lambda and parameter[:11] != 'log_sigma_k'`. -/
def isRandomized (e : String × NodeKind) : Bool :=
  decide (e.2 ≠ NodeKind.Lambda) && decide (takeChars e.1 11 ≠ "log_sigma_k".data)

theorem take11_log_sigma_k (t : String) :
    takeChars ("log_sigma_k_" ++ t) 11 = "log_sigma_k".data := by
  unfold takeChars
  rw [String.data_append, List.take_append_of_le_length (by decide)]
  decide

theorem filter_isRandomized_offsets (fragNames : List String)
    (hf : ∀ f ∈ fragNames, takeChars (f ++ "_offset") 11 ≠ "log_sigma_k".data) :
    (fragNames.map (fun f => (f ++ "_offset", NodeKind.Uniform))).filter isRandomized
      = fragNames.map (fun f => (f ++ "_offset", NodeKind.Uniform)) := by
  induction fragNames with
  | nil => rfl
  | cons f fs ih =>
      have h1 : isRandomized (f ++ "_offset", NodeKind.Uniform) = true := by
        simp [isRandomized, hf f (List.mem_cons_self f fs)]
      have ih' := ih (fun g hg => hf g (List.mem_cons_of_mem f hg))
      simp [List.filter_cons, h1, ih']

theorem filter_isRandomized_blocks (torsionNames : List String)
    (hK : ∀ t ∈ torsionNames, takeChars (t ++ "_K") 11 ≠ "log_sigma_k".data) :
    (torsionBlocks torsionNames).filter isRandomized
      = torsionNames.map (fun t => (t ++ "_K", NodeKind.Normal)) := by
  induction torsionNames with
  | nil => rfl
  | cons t ts ih =>
      have h1 : isRandomized ("log_sigma_k_" ++ t, NodeKind.Uniform) = false := by
        simp [isRandomized, take11_log_sigma_k]
      have h2 : isRandomized ("sigma_k_" ++ t, NodeKind.Lambda) = false := by
        simp [isRandomized]
      have h3 : isRandomized ("precision_k_" ++ t, NodeKind.Lambda) = false := by
        simp [isRandomized]
      have h4 : isRandomized (t ++ "_K", NodeKind.Normal) = true := by
        simp [isRandomized, hK t (List.mem_cons_self t ts)]
      have ih' := ih (fun u hu => hK u (List.mem_cons_of_mem t hu))
      simp [torsionBlocks, List.filter_cons, h1, h2, h3, h4, ih']

theorem filter_isRandomized_bitstrings (torsionNames : List String)
    (hB : ∀ t ∈ torsionNames,
      takeChars (t ++ "_multiplicity_bitstring") 11 ≠ "log_sigma_k".data) :
    (torsionNames.map
        (fun t => (t ++ "_multiplicity_bitstring", NodeKind.DiscreteUniform))).filter
        isRandomized
      = torsionNames.map
          (fun t => (t ++ "_multiplicity_bitstring", NodeKind.DiscreteUniform)) := by
  induction torsionNames with
  | nil => rfl
  | cons t ts ih =>
      have h1 : isRandomized (t ++ "_multiplicity_bitstring", NodeKind.DiscreteUniform)
          = true := by
        simp [isRandomized, hB t (List.mem_cons_self t ts)]
      have ih' := ih (fun u hu => hB u (List.mem_cons_of_mem t hu))
      simp [List.filter_cons, h1, ih']

/-- Claim C9: the `init_random` loop re-draws exactly the per-fragment
offsets, the per-torsion `K` vectors and (when reversible jump is on) the
bitmask latents; every `log_sigma_k` hyperparameter and every `Lambda`
(deterministic) node is left alone, and the global `log_sigma` is not even
present in the dictionary at that point.  The name hypotheses rule out
residue or torsion names that would collide with the `log_sigma_k` name
check. -/
theorem init_random_selects (fragNames torsionNames : List String) (rj : Bool)
    (hf : ∀ f ∈ fragNames, takeChars (f ++ "_offset") 11 ≠ "log_sigma_k".data)
    (hK : ∀ t ∈ torsionNames, takeChars (t ++ "_K") 11 ≠ "log_sigma_k".data)
    (hB : ∀ t ∈ torsionNames,
      takeChars (t ++ "_multiplicity_bitstring") 11 ≠ "log_sigma_k".data) :
    (paramsAtInit fragNames torsionNames rj).filter isRandomized
      = fragNames.map (fun f => (f ++ "_offset", NodeKind.Uniform))
        ++ torsionNames.map (fun t => (t ++ "_K", NodeKind.Normal))
        ++ (if rj then
              torsionNames.map
                (fun t => (t ++ "_multiplicity_bitstring", NodeKind.DiscreteUniform))
            else []) := by
  unfold paramsAtInit
  rw [List.filter_append, List.filter_append,
    filter_isRandomized_offsets fragNames hf,
    filter_isRandomized_blocks torsionNames hK]
  cases rj with
  | true => simp [filter_isRandomized_bitstrings torsionNames hB]
  | false => simp

/-- Claim C9, witness: one fragment `PRL`, one torsion `A_B_C_D`, reversible
jump on. -/
theorem init_random_selects_w :
    (paramsAtInit ["PRL"] ["A_B_C_D"] true).filter isRandomized
      = [("PRL_offset", NodeKind.Uniform), ("A_B_C_D_K", NodeKind.Normal),
         ("A_B_C_D_multiplicity_bitstring", NodeKind.DiscreteUniform)] := by
  rw [init_random_selects ["PRL"] ["A_B_C_D"] true (by decide) (by decide) (by decide)]
  rfl

/-! ### Legacy Parameter Synchronization (`torsions/TorsionFitModel.py`)

`update_param` (lines 101-128) pushes the current latent values into an
externally owned CHARMM parameter container.  The container maps a torsion
key to a list of `DihedralType` terms; in the real `CharmmParameterSet` the
forward key `(A,B,C,D)` and the reverse key `(D,C,B,A)` reference one and
the same term-list object, which we model explicitly as a heap: `keyRef`
resolves a key to a reference and `store` holds the list each reference
points to.  (The repository's own test `test_update_param` relies on this
aliasing: `update_param` writes through the forward key only and the test
then asserts the reverse key sees the update.)

The per-multiplicity latents `T_m_K` and `T_m_Phase` live in the
string-keyed dictionary `self.pymc_parameters`; the constructor (lines
31-53) creates them exactly for multiplicities {1,2,3,4,6}, so lookups are
partial (`Option`), and a missing key is a Python `KeyError`, modelled as
`Except.error`.  The bitstring latents (lines 55-58) exist for every
optimized torsion, so their lookup is total. -/
structure DihedralType where
  per : Nat
  phi_k : ℚ
  phase : ℚ
deriving DecidableEq

structure LegacyLatents where
  kv : String → Option ℚ
  phasev : String → Option ℚ
  bitstringv : String → Nat

/-- `torsion_name + '_' + str(m) + '_K'` (line 120). -/
def kParamName (tn : String) (m : Nat) : String :=
  tn ++ "_" ++ toString m ++ "_K"

/-- `torsion_name + '_' + str(m) + '_Phase'` (line 121). -/
def phaseParamName (tn : String) (m : Nat) : String :=
  tn ++ "_" ++ toString m ++ "_Phase"

/-- The body of the inner loop of `update_param` (lines 114-128) for one
container term: with `m = per`, if bit `m-1` of the bitstring is set then
multiplicity 5 is skipped (`continue`, line 118-119) and otherwise the
sampled `K` and `Phase` are copied into the term (lines 120-125, a missing
dictionary entry raising `KeyError`); if the bit is clear the stored force
constant is zeroed (line 128). -/
def updateTerm (lat : LegacyLatents) (tn : String) (bs : Nat)
    (dt : DihedralType) : Except String DihedralType :=
  if bs &&& 2 ^ (dt.per - 1) ≠ 0 then
    if dt.per = 5 then Except.ok dt
    else
      match lat.kv (kParamName tn dt.per) with
      | none => Except.error ("KeyError: " ++ kParamName tn dt.per)
      | some k =>
          match lat.phasev (phaseParamName tn dt.per) with
          | none => Except.error ("KeyError: " ++ phaseParamName tn dt.per)
          | some ph => Except.ok { dt with phi_k := k, phase := ph }
  else Except.ok { dt with phi_k := 0 }

/-- `for i in range(len(param.dihedral_types[p]))` (line 114): each existing
term is updated in order; a term absent from the container is never visited. -/
def updateTerms (lat : LegacyLatents) (tn : String) (bs : Nat) :
    List DihedralType → Except String (List DihedralType)
  | [] => Except.ok []
  | dt :: rest =>
      match updateTerm lat tn bs dt with
      | Except.error e => Except.error e
      | Except.ok dt' =>
          match updateTerms lat tn bs rest with
          | Except.error e => Except.error e
          | Except.ok rest' => Except.ok (dt' :: rest')

/-- The external parameter container: `keyRef` is the key-to-object
resolution of `param.dihedral_types` and `store` the term list each object
holds.  `update_param` never rebinds keys, only mutates the lists. -/
structure ParamSet where
  keyRef : Tors → Nat
  store : Nat → List DihedralType

structure LegacyModel where
  parameters_to_optimize : List Tors
  lat : LegacyLatents
  frags : List String

/-- One iteration of the outer loop of `update_param` (lines 110-128): read
the torsion's bitstring latent and rewrite the container's term list for
`p` in place. -/
def updParamStep (mdl : LegacyModel) (ps : ParamSet) (p : Tors) :
    Except String ParamSet :=
  let tn := torsionName p
  let bs := mdl.lat.bitstringv (tn ++ "_multiplicity_bitstring")
  match updateTerms mdl.lat tn bs (ps.store (ps.keyRef p)) with
  | Except.error e => Except.error e
  | Except.ok l' =>
      Except.ok { ps with store := fun r => if r = ps.keyRef p then l' else ps.store r }

def updateParamGo (mdl : LegacyModel) : List Tors → ParamSet → Except String ParamSet
  | [], ps => Except.ok ps
  | p :: rest, ps =>
      match updParamStep mdl ps p with
      | Except.error e => Except.error e
      | Except.ok ps1 => updateParamGo mdl rest ps1

/-- `TorsionFitModel.update_param` (torsions/TorsionFitModel.py:101-128). -/
def update_param (mdl : LegacyModel) (ps : ParamSet) : Except String ParamSet :=
  updateParamGo mdl mdl.parameters_to_optimize ps

/-- The deterministic node `mm_potential` (torsions/TorsionFitModel.py:66-73):
it first synchronizes the external container via `self.update_param(param)`,
then recomputes and concatenates each fragment's MM energy with the updated
container.  The external OpenMM evaluator `frag.compute_energy` is an
opaque parameter `computeEnergy`; the returned pair carries the value of the
node together with the container state after the evaluation. -/
def mm_potential (mdl : LegacyModel) (computeEnergy : ParamSet → String → List ℚ)
    (ps : ParamSet) : Except String (List ℚ × ParamSet) :=
  match update_param mdl ps with
  | Except.error e => Except.error e
  | Except.ok ps1 =>
      Except.ok (mdl.frags.foldl (fun mm f => mm ++ computeEnergy ps1 f) [], ps1)

/-- Claim C10: in `update_param`, a term of multiplicity 5 whose bit
(value `2^(5-1) = 16`) is set is skipped entirely (force constant and phase
unchanged); with the bit clear its force constant is zeroed with the phase
kept; and for the sampled multiplicities {1,2,3,4,6} a set bit copies the
current `K` and `Phase` latents into the term. -/
theorem updateTerm_multiplicity_cases (lat : LegacyLatents) (tn : String)
    (bs : Nat) (dt : DihedralType) :
    (dt.per = 5 → bs &&& 16 ≠ 0 → updateTerm lat tn bs dt = Except.ok dt) ∧
    (dt.per = 5 → bs &&& 16 = 0 →
      updateTerm lat tn bs dt = Except.ok { dt with phi_k := 0 }) ∧
    (∀ m, m ∈ ([1, 2, 3, 4, 6] : List Nat) → dt.per = m → bs &&& 2 ^ (m - 1) ≠ 0 →
      ∀ k ph, lat.kv (kParamName tn m) = some k →
        lat.phasev (phaseParamName tn m) = some ph →
        updateTerm lat tn bs dt = Except.ok { dt with phi_k := k, phase := ph }) := by
  refine ⟨?_, ?_, ?_⟩
  · intro h5 hbit
    rw [updateTerm, if_pos (by rw [h5]; exact hbit), if_pos h5]
  · intro h5 hbit
    rw [updateTerm, if_neg (by rw [h5]; simpa using hbit)]
  · intro m hm hper hbit k ph hk hph
    have hne5 : m ≠ 5 := by fin_cases hm <;> decide
    rw [updateTerm]
    simp only [hper]
    rw [if_pos hbit, if_neg hne5, hk, hph]

/-- Claim C10, witness: a multiplicity-5 term with bit 16 set is returned
unchanged, and a multiplicity-1 term with bit 1 set receives the sampled
force constant 7 and phase 1. -/
theorem updateTerm_multiplicity_cases_w :
    updateTerm ⟨fun _ => some 7, fun _ => some 1, fun _ => 0⟩ "A_B_C_D" 16
        ⟨5, 3, 1⟩ = Except.ok ⟨5, 3, 1⟩ ∧
    updateTerm ⟨fun _ => some 7, fun _ => some 1, fun _ => 0⟩ "A_B_C_D" 1
        ⟨1, 0, 0⟩ = Except.ok ⟨1, 7, 1⟩ :=
  ⟨(updateTerm_multiplicity_cases _ "A_B_C_D" 16 ⟨5, 3, 1⟩).1 rfl (by decide),
   (updateTerm_multiplicity_cases _ "A_B_C_D" 1 ⟨1, 0, 0⟩).2.2 1 (by decide) rfl
     (by decide) 7 1 rfl rfl⟩

/-- Characterization of a successful `updParamStep`: the term list at the
torsion's reference was rewritten, everything else (including the key
resolution) is unchanged. -/
theorem updParamStep_spec {mdl : LegacyModel} {ps : ParamSet} {p : Tors}
    {ps1 : ParamSet} (h : updParamStep mdl ps p = Except.ok ps1) :
    ∃ l', updateTerms mdl.lat (torsionName p)
        (mdl.lat.bitstringv (torsionName p ++ "_multiplicity_bitstring"))
        (ps.store (ps.keyRef p)) = Except.ok l' ∧
      ps1 = { ps with
        store := fun r => if r = ps.keyRef p then l' else ps.store r } := by
  simp only [updParamStep] at h
  split at h
  · exact Except.noConfusion h
  · rename_i l' heq
    injection h with h
    exact ⟨l', heq, h.symm⟩

theorem updParamStep_keyRef {mdl : LegacyModel} {ps : ParamSet} {p : Tors}
    {ps1 : ParamSet} (h : updParamStep mdl ps p = Except.ok ps1) :
    ps1.keyRef = ps.keyRef := by
  obtain ⟨l', -, rfl⟩ := updParamStep_spec h
  rfl

theorem updateParamGo_keyRef (mdl : LegacyModel) :
    ∀ (l : List Tors) (ps ps' : ParamSet),
      updateParamGo mdl l ps = Except.ok ps' → ps'.keyRef = ps.keyRef := by
  intro l
  induction l with
  | nil =>
      intro ps ps' h
      injection h with h
      subst h
      rfl
  | cons p rest ih =>
      intro ps ps' h
      unfold updateParamGo at h
      cases hstep : updParamStep mdl ps p with
      | error e => rw [hstep] at h; exact Except.noConfusion h
      | ok ps1 =>
          rw [hstep] at h
          rw [ih ps1 ps' h, updParamStep_keyRef hstep]

/-- Claim C5: after any successful `update_param`, the container's term lists
seen through a torsion key and through its reverse are identical.  The
hypothesis `hsym` is the aliasing behaviour of the external
`CharmmParameterSet` (both key orders resolve to the same stored list),
which the repository's test `test_update_param` exhibits;
`update_param` itself writes through the forward key only and never rebinds
keys, so the aliasing is preserved. -/
theorem update_param_reverse_consistent (mdl : LegacyModel) (ps ps' : ParamSet)
    (h : update_param mdl ps = Except.ok ps')
    (hsym : ∀ t, ps.keyRef t = ps.keyRef (revTors t)) (t : Tors) :
    ps'.store (ps'.keyRef t) = ps'.store (ps'.keyRef (revTors t)) := by
  have hk : ps'.keyRef = ps.keyRef :=
    updateParamGo_keyRef mdl mdl.parameters_to_optimize ps ps' h
  rw [hk, hsym t]

def torsC5 : Tors := ⟨"CG331", "CG321", "CG321", "CG331"⟩

def mdlC5 : LegacyModel :=
  ⟨[torsC5], ⟨fun _ => some 7, fun _ => some 1, fun _ => 0⟩, ["frag"]⟩

def psC5 : ParamSet := ⟨fun _ => 0, fun _ => [⟨2, 5, 0⟩]⟩

def psC5' : ParamSet :=
  ⟨fun _ => 0, fun r => if r = 0 then [⟨2, 0, 0⟩] else [⟨2, 5, 0⟩]⟩

/-- Claim C5, witness: a concrete synchronization run on an aliased
container. -/
theorem update_param_reverse_consistent_w :
    psC5'.store (psC5'.keyRef torsC5) = psC5'.store (psC5'.keyRef (revTors torsC5)) :=
  update_param_reverse_consistent mdlC5 psC5 psC5' rfl (fun _ => rfl) torsC5

theorem mem_sampled_of_bounds {m : Nat} (h1 : 1 ≤ m) (h6 : m ≤ 6) (h5 : m ≠ 5) :
    m ∈ ([1, 2, 3, 4, 6] : List Nat) := by
  interval_cases m <;> simp_all

theorem updateTerm_ok_of_per (lat : LegacyLatents) (tn : String) (bs : Nat)
    (dt : DihedralType) (_h1 : 1 ≤ dt.per) (_h6 : dt.per ≤ 6)
    (hk : dt.per ≠ 5 → (lat.kv (kParamName tn dt.per)).isSome = true)
    (hph : dt.per ≠ 5 → (lat.phasev (phaseParamName tn dt.per)).isSome = true) :
    ∃ dt', updateTerm lat tn bs dt = Except.ok dt' ∧ dt'.per = dt.per := by
  unfold updateTerm
  by_cases hbit : bs &&& 2 ^ (dt.per - 1) ≠ 0
  · rw [if_pos hbit]
    by_cases h5 : dt.per = 5
    · rw [if_pos h5]
      exact ⟨dt, rfl, rfl⟩
    · rw [if_neg h5]
      obtain ⟨k, hk'⟩ := Option.isSome_iff_exists.mp (hk h5)
      obtain ⟨ph, hph'⟩ := Option.isSome_iff_exists.mp (hph h5)
      rw [hk', hph']
      exact ⟨_, rfl, rfl⟩
  · rw [if_neg hbit]
    exact ⟨_, rfl, rfl⟩

theorem updateTerms_ok_of_per (lat : LegacyLatents) (tn : String) (bs : Nat)
    (hdict : ∀ m ∈ ([1, 2, 3, 4, 6] : List Nat),
      (lat.kv (kParamName tn m)).isSome = true ∧
      (lat.phasev (phaseParamName tn m)).isSome = true) :
    ∀ l : List DihedralType, (∀ dt ∈ l, 1 ≤ dt.per ∧ dt.per ≤ 6) →
      ∃ l', updateTerms lat tn bs l = Except.ok l' ∧
        l'.map DihedralType.per = l.map DihedralType.per := by
  intro l
  induction l with
  | nil => exact fun _ => ⟨[], rfl, rfl⟩
  | cons dt rest ih =>
      intro hl
      obtain ⟨h1, h6⟩ := hl dt (List.mem_cons_self dt rest)
      obtain ⟨dt', hdt', hper⟩ := updateTerm_ok_of_per lat tn bs dt h1 h6
        (fun h5 => (hdict dt.per (mem_sampled_of_bounds h1 h6 h5)).1)
        (fun h5 => (hdict dt.per (mem_sampled_of_bounds h1 h6 h5)).2)
      obtain ⟨l', hl', hmap⟩ := ih (fun u hu => hl u (List.mem_cons_of_mem dt hu))
      refine ⟨dt' :: l', ?_, ?_⟩
      · simp only [updateTerms, hdt', hl']
      · simp [hmap, hper]

theorem updateParamGo_ok (mdl : LegacyModel) :
    ∀ (l : List Tors) (ps : ParamSet),
      (∀ p ∈ l, ∀ m ∈ ([1, 2, 3, 4, 6] : List Nat),
        (mdl.lat.kv (kParamName (torsionName p) m)).isSome = true ∧
        (mdl.lat.phasev (phaseParamName (torsionName p) m)).isSome = true) →
      (∀ r, ∀ dt ∈ ps.store r, 1 ≤ dt.per ∧ dt.per ≤ 6) →
      ∃ ps', updateParamGo mdl l ps = Except.ok ps' ∧
        ∀ r, (ps'.store r).map DihedralType.per = (ps.store r).map DihedralType.per := by
  intro l
  induction l with
  | nil => exact fun ps _ _ => ⟨ps, rfl, fun r => rfl⟩
  | cons p rest ih =>
      intro ps hd hper
      obtain ⟨l', hl', hmap⟩ :=
        updateTerms_ok_of_per mdl.lat (torsionName p)
          (mdl.lat.bitstringv (torsionName p ++ "_multiplicity_bitstring"))
          (hd p (List.mem_cons_self p rest))
          (ps.store (ps.keyRef p)) (hper (ps.keyRef p))
      have hstep : updParamStep mdl ps p = Except.ok
          { ps with store := fun r => if r = ps.keyRef p then l' else ps.store r } := by
        unfold updParamStep
        simp only [hl']
      have hper1 : ∀ r, ∀ dt ∈ (if r = ps.keyRef p then l' else ps.store r),
          1 ≤ dt.per ∧ dt.per ≤ 6 := by
        intro r dt hdt
        by_cases hr : r = ps.keyRef p
        · rw [if_pos hr] at hdt
          have hmem : dt.per ∈ l'.map DihedralType.per := List.mem_map_of_mem _ hdt
          rw [hmap] at hmem
          obtain ⟨dt0, hdt0, hpe⟩ := List.mem_map.mp hmem
          rw [← hpe]
          exact hper (ps.keyRef p) dt0 hdt0
        · rw [if_neg hr] at hdt
          exact hper r dt hdt
      obtain ⟨ps', hgo, hmap'⟩ := ih
        { ps with store := fun r => if r = ps.keyRef p then l' else ps.store r }
        (fun q hq => hd q (List.mem_cons_of_mem p hq)) hper1
      refine ⟨ps', ?_, ?_⟩
      · unfold updateParamGo
        simp only [hstep, hgo]
      · intro r
        rw [hmap' r]
        by_cases hr : r = ps.keyRef p
        · subst hr
          simp [hmap]
        · simp [hr]

/-- Claim C4 (amended): under the constructor's dictionary guarantees and a
container whose terms all carry multiplicities in 1..6, `update_param`
always succeeds — it iterates only over the terms already present, so a
requested multiplicity with no container entry is silently skipped: no
error is raised and the multiplicity profile of every stored term list is
unchanged (in particular no term is created for the missing multiplicity). -/
theorem update_param_skips_missing (mdl : LegacyModel) (ps : ParamSet)
    (hdict : ∀ p ∈ mdl.parameters_to_optimize, ∀ m ∈ ([1, 2, 3, 4, 6] : List Nat),
      (mdl.lat.kv (kParamName (torsionName p) m)).isSome = true ∧
      (mdl.lat.phasev (phaseParamName (torsionName p) m)).isSome = true)
    (hper : ∀ r, ∀ dt ∈ ps.store r, 1 ≤ dt.per ∧ dt.per ≤ 6) :
    ∃ ps', update_param mdl ps = Except.ok ps' ∧
      ∀ r, (ps'.store r).map DihedralType.per = (ps.store r).map DihedralType.per :=
  updateParamGo_ok mdl mdl.parameters_to_optimize ps hdict hper

def torsC4 : Tors := ⟨"A", "B", "C", "D"⟩

/-- Bitstring 1 requests multiplicity 1, but the container holds only a
multiplicity-2 term. -/
def mdlC4 : LegacyModel :=
  ⟨[torsC4], ⟨fun _ => some 7, fun _ => some 0, fun _ => 1⟩, []⟩

def psC4 : ParamSet := ⟨fun _ => 0, fun _ => [⟨2, 5, 0⟩]⟩

def psC4' : ParamSet :=
  ⟨fun _ => 0, fun r => if r = 0 then [⟨2, 0, 0⟩] else [⟨2, 5, 0⟩]⟩

/-- Claim C4, counterexample: bit 0 of the bitstring is set (multiplicity 1
requested) and the container has no multiplicity-1 term, yet `update_param`
returns successfully — no "missing term" error — and the container still has
only its multiplicity-2 term (zeroed, since its own bit is clear). -/
theorem update_param_silent_skip_cex :
    update_param mdlC4 psC4 = Except.ok psC4' ∧
    Nat.testBit 1 0 = true ∧
    (psC4.store 0).map DihedralType.per = [2] ∧
    (psC4'.store 0).map DihedralType.per = [2] :=
  ⟨rfl, by decide, rfl, rfl⟩

/-- Claim C4, witness for the amended statement. -/
theorem update_param_skips_missing_w :
    ∃ ps', update_param mdlC4 psC4 = Except.ok ps' ∧
      ∀ r, (ps'.store r).map DihedralType.per = (psC4.store r).map DihedralType.per :=
  update_param_skips_missing mdlC4 psC4
    (by intro p hp m hm; exact ⟨rfl, rfl⟩)
    (by
      intro r dt hdt
      have : dt = ⟨2, 5, 0⟩ := List.mem_singleton.mp hdt
      rw [this]
      exact ⟨by norm_num, by norm_num⟩)

theorem updateTerm_idem (lat : LegacyLatents) (tn : String) (bs : Nat)
    (dt dt' : DihedralType) (h : updateTerm lat tn bs dt = Except.ok dt') :
    updateTerm lat tn bs dt' = Except.ok dt' := by
  obtain ⟨pe, fk, phs⟩ := dt
  unfold updateTerm at h
  by_cases hbit : bs &&& 2 ^ (pe - 1) ≠ 0
  · rw [if_pos hbit] at h
    by_cases h5 : pe = 5
    · rw [if_pos h5] at h
      injection h with h
      subst h
      unfold updateTerm
      rw [if_pos hbit, if_pos h5]
    · rw [if_neg h5] at h
      cases hk : lat.kv (kParamName tn pe) with
      | none => rw [hk] at h; exact Except.noConfusion h
      | some k =>
          rw [hk] at h
          cases hph : lat.phasev (phaseParamName tn pe) with
          | none => rw [hph] at h; exact Except.noConfusion h
          | some ph =>
              rw [hph] at h
              injection h with h
              subst h
              unfold updateTerm
              rw [if_pos hbit, if_neg h5, hk, hph]
  · rw [if_neg hbit] at h
    injection h with h
    subst h
    unfold updateTerm
    rw [if_neg hbit]

theorem updateTerms_idem (lat : LegacyLatents) (tn : String) (bs : Nat) :
    ∀ l l' : List DihedralType, updateTerms lat tn bs l = Except.ok l' →
      updateTerms lat tn bs l' = Except.ok l' := by
  intro l
  induction l with
  | nil =>
      intro l' h
      injection h with h
      subst h
      rfl
  | cons dt rest ih =>
      intro l' h
      unfold updateTerms at h
      cases hdt : updateTerm lat tn bs dt with
      | error e => rw [hdt] at h; exact Except.noConfusion h
      | ok dt' =>
          rw [hdt] at h
          cases hrest : updateTerms lat tn bs rest with
          | error e => rw [hrest] at h; exact Except.noConfusion h
          | ok rest' =>
              rw [hrest] at h
              injection h with h
              subst h
              have h1 := updateTerm_idem lat tn bs dt dt' hdt
              have h2 := ih rest' hrest
              unfold updateTerms
              simp only [h1, h2]

theorem updateParamGo_frame (mdl : LegacyModel) :
    ∀ (l : List Tors) (ps ps' : ParamSet),
      updateParamGo mdl l ps = Except.ok ps' →
      ∀ r, (∀ p ∈ l, ps.keyRef p ≠ r) → ps'.store r = ps.store r := by
  intro l
  induction l with
  | nil =>
      intro ps ps' h r _
      injection h with h
      subst h
      rfl
  | cons p rest ih =>
      intro ps ps' h r hr
      unfold updateParamGo at h
      cases hstep : updParamStep mdl ps p with
      | error e => rw [hstep] at h; exact Except.noConfusion h
      | ok ps1 =>
          rw [hstep] at h
          obtain ⟨l', -, hps1⟩ := updParamStep_spec hstep
          have hk1 : ps1.keyRef = ps.keyRef := by rw [hps1]
          have h2 := ih ps1 ps' h r
            (fun q hq => by rw [hk1]; exact hr q (List.mem_cons_of_mem p hq))
          rw [h2, hps1]
          simp only []
          rw [if_neg (fun hc => hr p (List.mem_cons_self p rest) hc.symm)]

theorem updateParamGo_idem (mdl : LegacyModel) :
    ∀ (l : List Tors) (ps ps' : ParamSet),
      updateParamGo mdl l ps = Except.ok ps' →
      List.Pairwise (fun p q => ps.keyRef p ≠ ps.keyRef q) l →
      updateParamGo mdl l ps' = Except.ok ps' := by
  intro l
  induction l with
  | nil =>
      intro ps ps' h _
      injection h with h
      subst h
      rfl
  | cons p rest ih =>
      intro ps ps' h hpw
      unfold updateParamGo at h
      cases hstep : updParamStep mdl ps p with
      | error e => rw [hstep] at h; exact Except.noConfusion h
      | ok ps1 =>
          rw [hstep] at h
          obtain ⟨hhead, htail⟩ := List.pairwise_cons.mp hpw
          obtain ⟨l', hterms, hps1⟩ := updParamStep_spec hstep
          have hk1 : ps1.keyRef = ps.keyRef := by rw [hps1]
          have hk' : ps'.keyRef = ps.keyRef := by
            rw [updateParamGo_keyRef mdl rest ps1 ps' h, hk1]
          have hframe : ps'.store (ps.keyRef p) = ps1.store (ps.keyRef p) :=
            updateParamGo_frame mdl rest ps1 ps' h (ps.keyRef p)
              (fun q hq => by rw [hk1]; exact (hhead q hq).symm)
          have hself : ps1.store (ps.keyRef p) = l' := by
            rw [hps1]
            simp
          have hterms2 : updateTerms mdl.lat (torsionName p)
              (mdl.lat.bitstringv (torsionName p ++ "_multiplicity_bitstring"))
              (ps'.store (ps'.keyRef p)) = Except.ok l' := by
            rw [hk', hframe, hself]
            exact updateTerms_idem mdl.lat _ _
              (ps.store (ps.keyRef p)) l' hterms
          have hfix : (fun r => if r = ps'.keyRef p then l' else ps'.store r)
              = ps'.store := by
            funext r
            by_cases hrr : r = ps'.keyRef p
            · subst hrr
              rw [if_pos rfl, hk', hframe, hself]
            · rw [if_neg hrr]
          have hstep2 : updParamStep mdl ps' p = Except.ok ps' := by
            simp only [updParamStep, hterms2, hfix]
          have htail1 : List.Pairwise (fun a b => ps1.keyRef a ≠ ps1.keyRef b) rest := by
            rw [hk1]
            exact htail
          have hrest2 := ih ps1 ps' h htail1
          unfold updateParamGo
          simp only [hstep2, hrest2]

/-- Claim C7 (amended): `mm_potential` is deterministic but not side-effect
free — evaluating it synchronizes the external parameter container (see the
counterexample) — yet it is stable under re-evaluation: starting from the
container state a first evaluation leaves behind, a second evaluation
returns the identical output vector and the identical container state.  The
hypothesis asks the optimized torsions to refer to distinct container
entries. -/
theorem mm_potential_second_eval_stable (mdl : LegacyModel)
    (ce : ParamSet → String → List ℚ) (ps : ParamSet) (v : List ℚ)
    (ps' : ParamSet)
    (hdisj : List.Pairwise (fun p q => ps.keyRef p ≠ ps.keyRef q)
      mdl.parameters_to_optimize)
    (h : mm_potential mdl ce ps = Except.ok (v, ps')) :
    mm_potential mdl ce ps' = Except.ok (v, ps') := by
  unfold mm_potential at h ⊢
  cases hup : update_param mdl ps with
  | error e => rw [hup] at h; exact Except.noConfusion h
  | ok ps1 =>
      rw [hup] at h
      injection h with h
      obtain ⟨hv, hps⟩ := Prod.mk.inj h
      subst hps
      subst hv
      have hidem : update_param mdl ps1 = Except.ok ps1 :=
        updateParamGo_idem mdl mdl.parameters_to_optimize ps ps1 hup hdisj
      simp only [hidem]

def torsC7 : Tors := ⟨"HGA2", "CG321", "CG321", "HGA2"⟩

def mdlC7 : LegacyModel :=
  ⟨[torsC7], ⟨fun _ => some 7, fun _ => some 0, fun _ => 0⟩, ["frag1"]⟩

def psC7 : ParamSet := ⟨fun _ => 0, fun _ => [⟨2, 5, 0⟩]⟩

def psC7' : ParamSet :=
  ⟨fun _ => 0, fun r => if r = 0 then [⟨2, 0, 0⟩] else [⟨2, 5, 0⟩]⟩

/-- Claim C7, counterexample: a single evaluation of `mm_potential` mutates
the external parameter container — the stored multiplicity-2 force constant
5 is zeroed by the embedded `update_param` call — so the evaluation is not
side-effect free. -/
theorem mm_potential_mutates_container_cex :
    mm_potential mdlC7 (fun _ _ => [1]) psC7 = Except.ok ([1], psC7') ∧
    psC7.store 0 = [⟨2, 5, 0⟩] ∧
    psC7'.store 0 = [⟨2, 0, 0⟩] ∧
    ([(⟨2, 0, 0⟩ : DihedralType)] ≠ [(⟨2, 5, 0⟩ : DihedralType)]) := by
  refine ⟨rfl, rfl, rfl, ?_⟩
  simp only [ne_eq, List.cons.injEq, DihedralType.mk.injEq, true_and, and_true]
  norm_num

/-- Claim C7, witness for the amended statement: re-evaluating from the
post-evaluation container reproduces the same value and state. -/
theorem mm_potential_second_eval_stable_w :
    mm_potential mdlC7 (fun _ _ => [1]) psC7' = Except.ok ([1], psC7') :=
  mm_potential_second_eval_stable mdlC7 (fun _ _ => [1]) psC7 [1] psC7'
    (List.pairwise_singleton _ _) rfl

/-! ### Initial value of the bitmask latents (model.py:113-120)

`TorsionFitModel.__init__` builds `multiplicity_bitstrings` by inserting
`multiplicity_bitstrings[torsion_name] = 0` for each new torsion name
(lines 113-114) and never increments it; when reversible jump is enabled the
bitstring latent is created with `value=multiplicity_bitstrings
[torsion_name]` (lines 116-120), hence with initial value 0 regardless of
the supplied parameter set.  (Only the legacy constructor,
torsions/TorsionFitModel.py:31-38, derives a nonzero start — and it does so
from the multiplicities *present* in the container, counting terms whose
force constant is 0.) -/
def multiplicityBitstringsInit (l : List Tors) : List (String × Nat) :=
  l.foldl
    (fun d p =>
      if d.any (fun e => e.1 == torsionName p) then d else d ++ [(torsionName p, 0)])
    []

/-- Modelled from the spec: "initial value = bitmask derived from the
starting parameter set's currently nonzero multiplicities (default 0 =
"all off" if none present)" — the sum of `2^(m-1)` over multiplicities `m`
that occur in the starting terms with a nonzero force constant.  No such
derivation exists in model.py; this definition only states what the claim
asserts the initial value to be. -/
def specDerivedBitmask (terms : List DihedralType) : Nat :=
  ((List.range 6).map
    (fun i =>
      if terms.any (fun t => t.per == i + 1 && decide (t.phi_k ≠ 0)) then 2 ^ i
      else 0)).sum

def torsC6 : Tors := ⟨"CG331", "CG321", "CG321", "HGA2"⟩

/-- Claim C6, counterexample: with a starting parameter set holding a
multiplicity-1 term of force constant 3, the claimed initial value is
`2^0 = 1`, but the constructor records 0 for every torsion. -/
theorem init_bitstring_zero_cex :
    multiplicityBitstringsInit [torsC6] = [(torsionName torsC6, 0)] ∧
    specDerivedBitmask [⟨1, 3, 0⟩] = 1 ∧
    (0 : Nat) ≠ 1 := by
  refine ⟨rfl, ?_, by decide⟩
  have h3 : decide ((3 : ℚ) ≠ 0) = true := by
    rw [decide_eq_true_eq]
    norm_num
  simp [specDerivedBitmask, List.range_succ, h3]

/-- Claim C6 (amended): in the reversible-jump model every bitmask latent's
initial value is 0, whatever the starting parameter set contains. -/
theorem init_bitstring_always_zero :
    ∀ (l : List Tors) (e : String × Nat), e ∈ multiplicityBitstringsInit l →
      e.2 = 0 := by
  have key : ∀ (l : List Tors) (acc : List (String × Nat)),
      (∀ e ∈ acc, e.2 = 0) →
      ∀ e ∈ l.foldl
        (fun d p =>
          if d.any (fun e => e.1 == torsionName p) then d
          else d ++ [(torsionName p, 0)]) acc,
        e.2 = 0 := by
    intro l
    induction l with
    | nil => intro acc hacc e he; exact hacc e he
    | cons p rest ih =>
        intro acc hacc e he
        simp only [List.foldl_cons] at he
        refine ih _ ?_ e he
        intro e' he'
        by_cases hc : (acc.any (fun e => e.1 == torsionName p)) = true
        · rw [if_pos hc] at he'
          exact hacc e' he'
        · rw [if_neg hc] at he'
          rcases List.mem_append.mp he' with hmem | hmem
          · exact hacc e' hmem
          · rw [List.mem_singleton] at hmem
            rw [hmem]
  intro l e he
  exact key l [] (fun e h => absurd h (List.not_mem_nil e)) e he

/-- Claim C6, witness for the amended statement. -/
theorem init_bitstring_always_zero_w :
    ((torsionName torsC6, 0) : String × Nat).2 = 0 :=
  init_bitstring_always_zero [torsC6] (torsionName torsC6, 0) (by decide)
